import Mathlib

set_option maxRecDepth 100000

/-!
Shallow embedding of the copy-on-write file system implemented in
src/cowfs.cpp.  Every operation below is translated from the body of the
corresponding C++ member function of cowfs::COWFileSystem.  The header
cowfs.hpp (struct layouts and the constants BLOCK_SIZE, MAX_FILES,
MAX_FILENAME_LENGTH) is not part of the sources, so the record layouts
follow the field usage visible in cowfs.cpp and the constants are kept as
parameters of the state, as the spec allows ("implementer picks concrete
values").  Bytes are Nat (0..255), buffers are lists of bytes, the
fd_t type is Int (negative values are errors, as in the C++ code).
Version timestamps (wall-clock strings) are not modelled; no claim
mentions them.  Loops are written with an explicit fuel argument so that
every definition reduces in the kernel; the fuel is always large enough
to be exhausted only in situations where the C++ loop would not
terminate (cyclic next_block chains), which no claim depends on.
-/

namespace CowFS

/-- One disk block, mirroring the Block record used by src/cowfs.cpp:
is_used flag, next_block chain link (0 is the end-of-chain marker),
ref_count, and BLOCK_SIZE payload bytes. -/
structure Block where
  is_used : Bool
  next_block : Nat
  ref_count : Nat
  data : List Nat
deriving DecidableEq

instance : Inhabited Block := ⟨⟨false, 0, 0, []⟩⟩

/-- One version record, mirroring VersionInfo as used by src/cowfs.cpp
(timestamp omitted: it is a wall-clock string no claim refers to). -/
structure VersionInfo where
  version_number : Nat
  size : Nat
  block_index : Nat
  delta_start : Nat
  delta_size : Nat
  prev_version : Nat
deriving DecidableEq

instance : Inhabited VersionInfo := ⟨⟨0, 0, 0, 0, 0, 0⟩⟩

/-- One inode slot, mirroring the Inode record used by src/cowfs.cpp. -/
structure Inode where
  is_used : Bool
  filename : String
  first_block : Nat
  size : Nat
  version_count : Nat
  version_history : List VersionInfo
deriving DecidableEq

instance : Inhabited Inode := ⟨⟨false, "", 0, 0, 0, []⟩⟩

/-- File access mode, mirroring cowfs::FileMode. -/
inductive FileMode where
  | READ : FileMode
  | WRITE : FileMode
deriving DecidableEq

/-- One file-descriptor slot, mirroring FileDescriptor in cowfs.cpp.
The C++ field is an Inode pointer; it is modelled as an optional index
into the inode table (none models the null pointer). -/
structure FileDescriptor where
  inode : Option Nat
  mode : FileMode
  current_position : Nat
  is_valid : Bool
deriving DecidableEq

instance : Inhabited FileDescriptor := ⟨⟨none, FileMode.READ, 0, false⟩⟩

/-- One free run, mirroring FreeBlockInfo (start_block, block_count);
the linked list of runs is modelled as a Lean list in link order. -/
structure FreeBlockInfo where
  start_block : Nat
  block_count : Nat
deriving DecidableEq

instance : Inhabited FreeBlockInfo := ⟨⟨0, 0⟩⟩

/-- The whole file-system state owned by a COWFileSystem instance.
bs models BLOCK_SIZE and mfl models MAX_FILENAME_LENGTH; both live in
the missing header cowfs.hpp, so they are carried as state parameters
(the spec leaves their concrete values to the implementer). -/
structure FS where
  bs : Nat
  mfl : Nat
  inodes : List Inode
  blocks : List Block
  file_descriptors : List FileDescriptor
  free_blocks_list : List FreeBlockInfo
deriving DecidableEq

/-- Read block i (out-of-range reads, undefined behaviour in C++, give
the default cleared block). -/
def FS.blockAt (fs : FS) (i : Nat) : Block :=
  fs.blocks.getD i default

/-- Read inode slot i. -/
def FS.inodeAt (fs : FS) (i : Nat) : Inode :=
  fs.inodes.getD i default

/-- Read file-descriptor slot i. -/
def FS.fdAt (fs : FS) (i : Nat) : FileDescriptor :=
  fs.file_descriptors.getD i default

/-- Store block i. -/
def FS.setBlock (fs : FS) (i : Nat) (b : Block) : FS :=
  { fs with blocks := fs.blocks.set i b }

/-- Store inode slot i. -/
def FS.setInode (fs : FS) (i : Nat) (v : Inode) : FS :=
  { fs with inodes := fs.inodes.set i v }

/-- Store file-descriptor slot i. -/
def FS.setFd (fs : FS) (i : Nat) (e : FileDescriptor) : FS :=
  { fs with file_descriptors := fs.file_descriptors.set i e }

/-- Overwrite only the cursor of file-descriptor slot i (the shape every
cursor update in cowfs.cpp has). -/
def FS.writePos (fs : FS) (i : Nat) (p : Nat) : FS :=
  fs.setFd i { fs.fdAt i with current_position := p }

/-! Free-space manager (COWFileSystem::add_to_free_list,
merge_free_blocks, find_best_fit, cowfs.cpp lines 872-948). -/

/-- Tail of add_to_free_list: walk while the next run starts before the
new one, then splice the new run in (cowfs.cpp lines 919-924). -/
def insertFreeRest (nb : FreeBlockInfo) : List FreeBlockInfo → List FreeBlockInfo
  | [] => [nb]
  | a :: rest =>
    if a.start_block < nb.start_block then a :: insertFreeRest nb rest
    else nb :: a :: rest

/-- Body of merge_free_blocks with fuel: merge the current run with the
next while they touch, else advance (cowfs.cpp lines 872-892).  The C++
loop performs at most length-many merges, so fuel = length is exact. -/
def mergeFuel : Nat → List FreeBlockInfo → List FreeBlockInfo
  | 0, l => l
  | _ + 1, [] => []
  | _ + 1, [a] => [a]
  | f + 1, a :: b :: rest =>
    if a.start_block + a.block_count = b.start_block then
      mergeFuel f (⟨a.start_block, a.block_count + b.block_count⟩ :: rest)
    else
      a :: mergeFuel f (b :: rest)

/-- COWFileSystem::merge_free_blocks (coalescing pass over the list). -/
def mergeFreeBlocks (l : List FreeBlockInfo) : List FreeBlockInfo :=
  mergeFuel l.length l

/-- COWFileSystem::add_to_free_list: address-ordered insert, then the
coalescing pass (cowfs.cpp lines 912-928). -/
def addToFreeList (fs : FS) (start count : Nat) : FS :=
  let nb : FreeBlockInfo := ⟨start, count⟩
  let l :=
    match fs.free_blocks_list with
    | [] => [nb]
    | a :: rest =>
      if start < a.start_block then nb :: a :: rest
      else a :: insertFreeRest nb rest
  { fs with free_blocks_list := mergeFreeBlocks l }

/-- Scan of find_best_fit carrying the index and the best candidate so
far as (index, difference); early exit on a perfect fit (cowfs.cpp
lines 930-948). -/
def findBestFitAux : List FreeBlockInfo → Nat → Nat → Option (Nat × Nat) → Option Nat
  | [], _, _, best => best.map Prod.fst
  | a :: rest, need, idx, best =>
    if need ≤ a.block_count then
      let d := a.block_count - need
      let better : Bool :=
        match best with
        | none => true
        | some (_, bd) => decide (d < bd)
      if better then
        if d = 0 then some idx
        else findBestFitAux rest need (idx + 1) (some (idx, d))
      else findBestFitAux rest need (idx + 1) best
    else findBestFitAux rest need (idx + 1) best

/-- COWFileSystem::find_best_fit, returning the position of the chosen
run inside the free list. -/
def findBestFit (fs : FS) (need : Nat) : Option Nat :=
  findBestFitAux fs.free_blocks_list need 0 none

/-! Block store and reference counter (cowfs.cpp lines 567-652). -/

/-- COWFileSystem::allocate_block: take one block from the best-fit run
(advance it, or unlink it when it is exhausted) and mark the block
in_use with next 0 and ref_count 0 (cowfs.cpp lines 567-609). -/
def allocateBlock (fs : FS) : Option (Nat × FS) :=
  match findBestFit fs 1 with
  | none => none
  | some idx =>
    let run := fs.free_blocks_list.getD idx default
    let bi := run.start_block
    let fl :=
      if 1 < run.block_count then
        fs.free_blocks_list.set idx ⟨run.start_block + 1, run.block_count - 1⟩
      else
        fs.free_blocks_list.eraseIdx idx
    let fs1 : FS := { fs with free_blocks_list := fl }
    some (bi, fs1.setBlock bi
      { fs1.blockAt bi with is_used := true, next_block := 0, ref_count := 0 })

/-- COWFileSystem::free_block: clear in_use and next of an in-range
block; the index is not returned to the free list (cowfs.cpp 611-616). -/
def freeBlock (fs : FS) (bi : Nat) : FS :=
  if bi < fs.blocks.length then
    fs.setBlock bi { fs.blockAt bi with is_used := false, next_block := 0 }
  else fs

/-- Loop of increment_block_refs: walk next links while the index is
nonzero and in range, incrementing each ref_count (cowfs.cpp 631-636). -/
def incRefsAux (fs : FS) (bi : Nat) : Nat → FS
  | 0 => fs
  | fuel + 1 =>
    if bi ≠ 0 ∧ bi < fs.blocks.length then
      let b := fs.blockAt bi
      incRefsAux (fs.setBlock bi { b with ref_count := b.ref_count + 1 }) b.next_block fuel
    else fs

/-- COWFileSystem::increment_block_refs. -/
def incrementBlockRefs (fs : FS) (bi : Nat) : FS :=
  incRefsAux fs bi (fs.blocks.length + 1)

/-- Loop of decrement_block_refs, translated statement by statement from
cowfs.cpp lines 638-652.  Note the control flow of the source: when a
count reaches zero the block is freed and block_index is set to the
saved successor, after which the statement at the bottom of the loop
body advances block_index once more, to blocks[successor].next_block. -/
def decRefsAux (fs : FS) (bi : Nat) : Nat → FS
  | 0 => fs
  | fuel + 1 =>
    if bi ≠ 0 ∧ bi < fs.blocks.length then
      let b := fs.blockAt bi
      if 0 < b.ref_count then
        if b.ref_count = 1 then
          let nb := b.next_block
          let fs1 := freeBlock (fs.setBlock bi { b with ref_count := 0 }) bi
          decRefsAux fs1 ((fs1.blockAt nb).next_block) fuel
        else
          fs.setBlock bi { b with ref_count := b.ref_count - 1 }
      else
        decRefsAux fs b.next_block fuel
    else fs

/-- COWFileSystem::decrement_block_refs. -/
def decrementBlockRefs (fs : FS) (bi : Nat) : FS :=
  decRefsAux fs bi (fs.blocks.length + 1)

/-! Inode and file-descriptor tables (cowfs.cpp lines 536-565). -/

/-- COWFileSystem::find_inode: index of the first in-use inode whose
name matches (cowfs.cpp lines 536-550). -/
def findInodeIdx (fs : FS) (name : String) : Option Nat :=
  fs.inodes.findIdx? (fun i => i.is_used && decide (i.filename = name))

/-- Slot search inside create: first inode with is_used false. -/
def firstUnusedInode (fs : FS) : Option Nat :=
  fs.inodes.findIdx? (fun i => !i.is_used)

/-- COWFileSystem::allocate_file_descriptor: lowest slot with is_valid
false (cowfs.cpp lines 552-559). -/
def allocateFd (fs : FS) : Option Nat :=
  fs.file_descriptors.findIdx? (fun e => !e.is_valid)

/-- COWFileSystem::create (cowfs.cpp lines 86-132): reject long or
duplicate names, claim the first free inode slot, then allocate a
file descriptor; if none is free the inode claim is rolled back by
clearing is_used only. -/
def fsCreate (fs : FS) (name : String) : Int × FS :=
  if fs.mfl ≤ name.length then (-1, fs)
  else if (findInodeIdx fs name).isSome then (-1, fs)
  else
    match firstUnusedInode fs with
    | none => (-1, fs)
    | some ii =>
      let fs1 := fs.setInode ii ⟨true, name, 0, 0, 0, []⟩
      match allocateFd fs1 with
      | none => (-1, fs1.setInode ii { fs1.inodeAt ii with is_used := false })
      | some fd =>
        ((fd : Nat), fs1.setFd fd ⟨some ii, FileMode.WRITE, 0, true⟩)

/-- COWFileSystem::open (cowfs.cpp lines 134-169): look the name up,
grab a descriptor, cursor 0 in both modes. -/
def fsOpen (fs : FS) (name : String) (mode : FileMode) : Int × FS :=
  match findInodeIdx fs name with
  | none => (-1, fs)
  | some ii =>
    match allocateFd fs with
    | none => (-1, fs)
    | some fd =>
      ((fd : Nat), fs.setFd fd ⟨some ii, mode, 0, true⟩)

/-- COWFileSystem::close (cowfs.cpp lines 525-533). -/
def fsClose (fs : FS) (fd : Int) : Int × FS :=
  if fd < 0 ∨ (fs.file_descriptors.length : Int) ≤ fd ∨
      ¬ (fs.fdAt fd.toNat).is_valid then (-1, fs)
  else (0, fs.setFd fd.toNat { fs.fdAt fd.toNat with is_valid := false })

/-! Read path (COWFileSystem::read, cowfs.cpp lines 171-265). -/

/-- Skip loop of read: advance cursor/BLOCK_SIZE links before copying;
the argument counts the remaining iterations (skips - i), so the
source condition i < blocks_skipped - 1 is 0 < remaining - 1
(cowfs.cpp lines 218-228). -/
def readSkipAux (fs : FS) (cur : Nat) : Nat → Option Nat
  | 0 => some cur
  | k + 1 =>
    if cur < fs.blocks.length then
      let nb := (fs.blockAt cur).next_block
      if fs.blocks.length ≤ nb ∧ 0 < k then none
      else readSkipAux fs nb k
    else some cur

/-- Copy loop of read: while bytes remain and the index is in range,
fail on a block not in_use, else copy min(remaining, BLOCK_SIZE-offset)
bytes and follow next (cowfs.cpp lines 237-256).  Fuel is the byte
count, enough because each pass copies at least one byte when bs > 0;
leaving the loop with bytes remaining returns the partial buffer, as
the source does. -/
def readLoopAux (fs : FS) (cur offset remaining : Nat) (acc : List Nat) :
    Nat → Option (List Nat)
  | 0 => some acc
  | fuel + 1 =>
    if remaining ≠ 0 ∧ cur < fs.blocks.length then
      let b := fs.blockAt cur
      if b.is_used then
        let chunk := min remaining (fs.bs - offset)
        readLoopAux fs b.next_block 0 (remaining - chunk)
          (acc ++ (b.data.drop offset).take chunk) fuel
      else none
    else some acc

/-- Value of the size_t expression inode->size - current_position in
read: wrap-around on underflow, modulo 2^64. -/
def availBytes (size pos : Nat) : Nat :=
  (2 ^ 64 + size - pos) % 2 ^ 64

/-- COWFileSystem::read: validity checks, EOF handling, block-chain
walk honouring the cursor; returns the bytes read (none models the -1
error return) and the state, whose only possible change is the cursor
of the descriptor. -/
def fsRead (fs : FS) (fd : Int) (size : Nat) : Option (List Nat) × FS :=
  if fd < 0 ∨ (fs.file_descriptors.length : Int) ≤ fd ∨
      ¬ (fs.fdAt fd.toNat).is_valid then (none, fs)
  else
    let fdn := fd.toNat
    let e := fs.fdAt fdn
    match e.inode with
    | none => (none, fs)
    | some ii =>
      let ino := fs.inodeAt ii
      if ino.size = 0 then (some [], fs)
      else if fs.blocks.length ≤ ino.first_block ∨
          ¬ (fs.blockAt ino.first_block).is_used then (none, fs)
      else
        let btr := min size (availBytes ino.size e.current_position)
        if btr = 0 then (some [], fs)
        else
          let offset := e.current_position % fs.bs
          let skips := e.current_position / fs.bs
          match readSkipAux fs ino.first_block skips with
          | none => (none, fs)
          | some cur =>
            if fs.blocks.length ≤ cur then (none, fs)
            else
              match readLoopAux fs cur offset btr [] btr with
              | none => (none, fs)
              | some bytes =>
                (some bytes, fs.writePos fdn (e.current_position + bytes.length))

/-! Delta detector (COWFileSystem::find_delta, cowfs.cpp lines 275-324). -/

/-- Common-prefix scan of find_delta (cowfs.cpp lines 289-293). -/
def commonPrefixLen : List Nat → List Nat → Nat
  | a :: as, b :: bs => if a = b then commonPrefixLen as bs + 1 else 0
  | _, _ => 0

/-- Common-suffix scan of find_delta: compare bytes from the tails; the
fuel is the loop bound min(old_size, new_size) - delta_start, so the
comparison runs exactly while cs is below that bound (cowfs.cpp lines
308-313). -/
def suffixScan (o n : List Nat) (cs : Nat) : Nat → Nat
  | 0 => cs
  | fuel + 1 =>
    if o.getD (o.length - 1 - cs) 0 = n.getD (n.length - 1 - cs) 0 then
      suffixScan o n (cs + 1) fuel
    else cs

/-- COWFileSystem::find_delta on byte buffers (sizes are the lengths).
The C++ bool return is constantly true and is dropped. -/
def findDelta (o n : List Nat) : Nat × Nat :=
  if o.length = n.length ∧ o = n then (0, 0)
  else
    let ds := commonPrefixLen o n
    if ds = n.length ∧ n.length < o.length then (ds, 0)
    else if ds = o.length ∧ o.length < n.length then (ds, n.length - o.length)
    else
      let bound := min (o.length - ds) (n.length - ds)
      let cs := suffixScan o n 0 bound
      let dsz := n.length - ds - cs
      if n.length < ds + dsz then (ds, n.length - ds) else (ds, dsz)

/-! Write path (COWFileSystem::write_delta_blocks and write,
cowfs.cpp lines 326-523). -/

/-- Cleanup walk after an allocation failure inside write_delta_blocks:
free the partially built chain (cowfs.cpp lines 353-360). -/
def wdbFreeChain (fs : FS) (bi : Nat) : Nat → FS
  | 0 => fs
  | fuel + 1 =>
    if bi ≠ 0 ∧ bi < fs.blocks.length then
      let nb := (fs.blockAt bi).next_block
      wdbFreeChain (freeBlock fs bi) nb fuel
    else fs

/-- Allocation/copy loop of write_delta_blocks: k blocks remain; data is
the not-yet-written byte suffix.  Each pass allocates a block, links it
to the previous one (or records it as the head on the first pass),
copies min(remaining, BLOCK_SIZE) bytes and zero-pads the tail; after
the loop the last block gets next_block 0.  On an allocation failure the
partial chain is freed when its head is nonzero, and none is returned
(cowfs.cpp lines 340-398). -/
def wdbLoop (fs : FS) (data : List Nat) (remaining : Nat)
    (first prev : Nat) (isFirst : Bool) : Nat → Option Nat × FS
  | 0 =>
    let fs1 :=
      if prev < fs.blocks.length then
        fs.setBlock prev { fs.blockAt prev with next_block := 0 }
      else fs
    (some first, fs1)
  | k + 1 =>
    match allocateBlock fs with
    | none =>
      let fs1 :=
        if first ≠ 0 then wdbFreeChain fs first (fs.blocks.length + 1) else fs
      (none, fs1)
    | some (bi, fsA) =>
      let first1 := if isFirst then bi else first
      let fsB :=
        if isFirst then fsA
        else fsA.setBlock prev { fsA.blockAt prev with next_block := bi }
      let btw := min remaining fs.bs
      let fsC := fsB.setBlock bi
        { fsB.blockAt bi with data := data.take btw ++ List.replicate (fs.bs - btw) 0 }
      wdbLoop fsC (data.drop btw) (remaining - btw) first1 bi false k

/-- COWFileSystem::write_delta_blocks: note that the source copies from
buffer + delta_start and sizes the chain by actual_size =
min(size - delta_start, size), i.e. the chain receives only the byte
suffix of the buffer that starts at delta_start (cowfs.cpp 326-399). -/
def writeDeltaBlocks (fs : FS) (buffer : List Nat) (size delta_start : Nat) :
    Option Nat × FS :=
  if size = 0 ∨ size ≤ delta_start then (some 0, fs)
  else
    let actual_size := min (size - delta_start) size
    let blocks_needed := (actual_size + fs.bs - 1) / fs.bs
    wdbLoop fs (buffer.drop delta_start) actual_size 0 0 true blocks_needed

/-- Tail of COWFileSystem::write after the delta has been computed
(cowfs.cpp lines 477-522): a zero delta advances the cursor and returns
size without any other change; otherwise a fresh chain is written, the
version record is appended, refcounts of the new chain rise, and the
inode and cursor are updated. -/
def fsWriteCommit (fs : FS) (fdn ii : Nat) (buffer : List Nat)
    (ds dsz : Nat) : Int × FS :=
  let size := buffer.length
  if dsz = 0 then ((size : Nat), fs.writePos fdn size)
  else
    match writeDeltaBlocks fs buffer size ds with
    | (none, fsE) => (-1, fsE)
    | (some nfb, fsE) =>
      let vc := (fsE.inodeAt ii).version_count
      let nv : VersionInfo := ⟨vc + 1, size, nfb, ds, dsz, vc⟩
      let fsF := incrementBlockRefs fsE nfb
      let ino2 := fsF.inodeAt ii
      let fsG := fsF.setInode ii
        { ino2 with
          version_history := ino2.version_history ++ [nv],
          first_block := nfb,
          size := size,
          version_count := ino2.version_count + 1 }
      ((size : Nat), fsG.writePos fdn size)

/-- COWFileSystem::write (cowfs.cpp lines 401-523): validity checks, a
0-byte write is a no-op returning 0; the first version (or an empty old
file) takes delta = (0, size); otherwise the current content is read
back (cursor saved and restored) and the delta detector runs; then the
commit tail above. -/
def fsWrite (fs : FS) (fd : Int) (buffer : List Nat) : Int × FS :=
  if fd < 0 ∨ (fs.file_descriptors.length : Int) ≤ fd ∨
      ¬ (fs.fdAt fd.toNat).is_valid then (-1, fs)
  else
    let fdn := fd.toNat
    let e := fs.fdAt fdn
    if e.mode ≠ FileMode.WRITE then (-1, fs)
    else
      match e.inode with
      | none => (-1, fs)
      | some ii =>
        if buffer.length = 0 then (0, fs)
        else
          let ino := fs.inodeAt ii
          let old_size := ino.size
          if ino.version_count = 0 then fsWriteCommit fs fdn ii buffer 0 buffer.length
          else if old_size = 0 then fsWriteCommit fs fdn ii buffer 0 buffer.length
          else
            let saved := e.current_position
            let fs1 := fs.writePos fdn 0
            let rr := fsRead fs1 fd old_size
            let fs3 := rr.2.writePos fdn saved
            match rr.1 with
            | none => (-1, fs3)
            | some old =>
              if old.length ≠ old_size then (-1, fs3)
              else
                let d := findDelta old buffer
                fsWriteCommit fs3 fdn ii buffer d.1 d.2

/-! Rollback (COWFileSystem::rollback_to_version, cowfs.cpp 685-758). -/

/-- COWFileSystem::rollback_to_version: validity checks, locate the
target version record, decrement the chains of every later version
(in history order, skipping out-of-range heads), truncate the history
to the records with number at most v, update the inode and place the
cursor at the restored size for WRITE handles and at 0 otherwise. -/
def fsRollback (fs : FS) (fd : Int) (v : Nat) : Bool × FS :=
  if fd < 0 ∨ (fs.file_descriptors.length : Int) ≤ fd ∨
      ¬ (fs.fdAt fd.toNat).is_valid then (false, fs)
  else
    let fdn := fd.toNat
    let e := fs.fdAt fdn
    match e.inode with
    | none => (false, fs)
    | some ii =>
      let ino := fs.inodeAt ii
      if v = 0 ∨ ino.version_count < v then (false, fs)
      else
        match ino.version_history.find? (fun w => w.version_number == v) with
        | none => (false, fs)
        | some tgt =>
          let kept := ino.version_history.filter (fun w => decide (w.version_number ≤ v))
          let fs1 := ino.version_history.foldl
            (fun s w =>
              if w.version_number ≤ v then s
              else if w.block_index < s.blocks.length then
                decrementBlockRefs s w.block_index
              else s) fs
          let ino1 := fs1.inodeAt ii
          let fs2 := fs1.setInode ii
            { ino1 with
              version_history := kept,
              first_block := tgt.block_index,
              size := tgt.size,
              version_count := v }
          let e2 := fs2.fdAt fdn
          let fs3 := fs2.setFd fdn
            { e2 with current_position := if e2.mode = FileMode.WRITE then tgt.size else 0 }
          (true, fs3)

/-! Accessors (cowfs.cpp lines 655-679 and 770-788).  The C++ bodies
dereference the handle's inode pointer with no null check once the fd
range and is_valid checks pass; a null pointer there is undefined
behaviour, modelled as the result none. -/

/-- COWFileSystem::get_file_size; none models the unchecked null
dereference of the C++ body. -/
def fsGetFileSize (fs : FS) (fd : Int) : Option Nat :=
  if fd < 0 ∨ (fs.file_descriptors.length : Int) ≤ fd ∨
      ¬ (fs.fdAt fd.toNat).is_valid then some 0
  else (fs.fdAt fd.toNat).inode.map (fun ii => (fs.inodeAt ii).size)

/-- COWFileSystem::get_version_count; none models the unchecked null
dereference of the C++ body. -/
def fsGetVersionCount (fs : FS) (fd : Int) : Option Nat :=
  if fd < 0 ∨ (fs.file_descriptors.length : Int) ≤ fd ∨
      ¬ (fs.fdAt fd.toNat).is_valid then some 0
  else (fs.fdAt fd.toNat).inode.map (fun ii => (fs.inodeAt ii).version_count)

/-- COWFileSystem::get_file_status as (is_open, is_modified,
current_size, current_version); none models the unchecked null
dereference of the C++ body. -/
def fsGetFileStatus (fs : FS) (fd : Int) : Option (Bool × Bool × Nat × Nat) :=
  if fd < 0 ∨ (fs.file_descriptors.length : Int) ≤ fd ∨
      ¬ (fs.fdAt fd.toNat).is_valid then some (false, false, 0, 0)
  else (fs.fdAt fd.toNat).inode.map (fun ii =>
    (true, decide ((fs.fdAt fd.toNat).mode = FileMode.WRITE),
      (fs.inodeAt ii).size, (fs.inodeAt ii).version_count))

/-! Garbage collector (COWFileSystem::garbage_collect, cowfs.cpp
lines 800-841). -/

/-- Chain walk of the GC mark phase: follow next links, marking each
visited block that has a positive ref_count (cowfs.cpp lines 807-814). -/
def gcMarkChain (fs : FS) (used : List Bool) (bi : Nat) : Nat → List Bool
  | 0 => used
  | fuel + 1 =>
    if bi ≠ 0 ∧ bi < fs.blocks.length then
      let used1 :=
        if 0 < (fs.blockAt bi).ref_count then used.set bi true else used
      gcMarkChain fs used1 (fs.blockAt bi).next_block fuel
    else used

/-- Mark phase of garbage_collect: walk every version chain of every
in-use inode (cowfs.cpp lines 801-816). -/
def gcMark (fs : FS) : List Bool :=
  fs.inodes.foldl
    (fun used ino =>
      if ino.is_used then
        ino.version_history.foldl
          (fun u w => gcMarkChain fs u w.block_index (fs.blocks.length + 1)) used
      else used)
    (List.replicate fs.blocks.length false)

/-- Length of the maximal run of unmarked indices starting at i, bounded
by the block count (the inner counting loop of the sweep, cowfs.cpp
lines 822-829); fuel is the remaining bound n - i. -/
def falseRunLen (used : List Bool) (i : Nat) : Nat → Nat
  | 0 => 0
  | k + 1 =>
    if used.getD i true = false then falseRunLen used (i + 1) k + 1 else 0

/-- Clear count blocks starting at start to the empty state, as the
sweep loop does while counting (cowfs.cpp lines 823-828). -/
def clearRange (fs : FS) (start : Nat) : Nat → FS
  | 0 => fs
  | c + 1 =>
    clearRange (fs.setBlock start ⟨false, 0, 0, List.replicate fs.bs 0⟩) (start + 1) c

/-- Sweep phase of garbage_collect: for each maximal unmarked run, clear
the blocks and hand the run to add_to_free_list, then jump past the run
(start += count; start++ in the source); n is the block count and the
fuel bounds the outer iterations (cowfs.cpp lines 818-838). -/
def gcSweep (fs : FS) (used : List Bool) (n start : Nat) : Nat → FS
  | 0 => fs
  | f + 1 =>
    if start < n then
      if used.getD start true = false then
        let count := falseRunLen used start (n - start)
        let fs1 := clearRange fs start count
        let fs2 := if 0 < count then addToFreeList fs1 start count else fs1
        gcSweep fs2 used n (start + count + 1) f
      else gcSweep fs used n (start + 1) f
    else fs

/-- COWFileSystem::garbage_collect: mark, sweep (adding each unmarked
run to the existing free list), and one final coalescing pass. -/
def garbageCollect (fs : FS) : FS :=
  let used := gcMark fs
  let fs1 := gcSweep fs used fs.blocks.length 0 fs.blocks.length
  { fs1 with free_blocks_list := mergeFreeBlocks fs1.free_blocks_list }

/-! Construction (COWFileSystem::COWFileSystem, init_file_system and
initialize_disk, cowfs.cpp lines 13-84): fresh tables, the single free
run (0, total_blocks), and then, when an image exists, the inode table
and block array are loaded from it while the free list keeps the
single-run initializer (the source performs no rebuild scan). -/

/-- The constructor.  total_blocks = disk_size / BLOCK_SIZE; image is
the stored (inode table, block array) when the image file exists. -/
def cowConstruct (bs mfl maxFiles diskSize : Nat)
    (image : Option (List Inode × List Block)) : FS :=
  let total := diskSize / bs
  let fs0 : FS :=
    ⟨bs, mfl,
      List.replicate maxFiles (default : Inode),
      List.replicate total ⟨false, 0, 0, List.replicate bs 0⟩,
      List.replicate maxFiles (default : FileDescriptor),
      []⟩
  let fs1 := addToFreeList fs0 0 total
  match image with
  | none => fs1
  | some (ins, bls) => { fs1 with inodes := ins, blocks := bls }

/-! Derived notions used to state the claims, and concrete states. -/

/-- Chain of block indices from a head: the head itself (when in range)
followed by the blocks reached through next links until the 0
terminator or an out-of-range link; fuel bounds the walk. -/
def chainFrom (fs : FS) : Nat → Nat → List Nat
  | _, 0 => []
  | bi, fuel + 1 =>
    if bi < fs.blocks.length then
      bi ::
        (let nb := (fs.blockAt bi).next_block
         if nb = 0 then [] else chainFrom fs nb fuel)
    else []

/-- Concatenated payload of a chain. -/
def chainData (fs : FS) (bi fuel : Nat) : List Nat :=
  ((chainFrom fs bi fuel).map (fun i => (fs.blockAt i).data)).flatten

/-- A block index is reachable when it lies on the chain headed at the
block_index of some version of some in-use inode (the notion of
invariant 1 / section 8 of the spec). -/
def reachableBlock (fs : FS) (b : Nat) : Bool :=
  fs.inodes.any (fun ino =>
    ino.is_used &&
      ino.version_history.any (fun w =>
        (chainFrom fs w.block_index (fs.blocks.length + 1)).contains b))

/-- The free-run list is strictly ascending by start. -/
def ascendingRuns : List FreeBlockInfo → Bool
  | [] => true
  | [_] => true
  | a :: b :: rest =>
    decide (a.start_block < b.start_block) && ascendingRuns (b :: rest)

/-- Membership of a block index in some free run. -/
def inFreeList (fs : FS) (i : Nat) : Bool :=
  fs.free_blocks_list.any (fun r =>
    decide (r.start_block ≤ i) && decide (i < r.start_block + r.block_count))

/-- Invariant 3 of the spec: every block index is either on the free
list or in use, and not both. -/
def freeUsedPartition (fs : FS) : Bool :=
  (List.range fs.blocks.length).all (fun i => inFreeList fs i != (fs.blockAt i).is_used)

/-- Follows the spec's words (section 9, free-run reconstruction), for
comparison with what the constructor actually builds: the maximal
coalesced runs of the blocks whose in_use flag is false, scanned in
ascending order; i is the index of the first listed block. -/
def specFreeRunsFrom : List Block → Nat → List FreeBlockInfo
  | [], _ => []
  | b :: rest, i =>
    if b.is_used then specFreeRunsFrom rest (i + 1)
    else
      match specFreeRunsFrom rest (i + 1) with
      | [] => [⟨i, 1⟩]
      | r :: more =>
        if r.start_block = i + 1 then ⟨i, r.block_count + 1⟩ :: more
        else ⟨i, 1⟩ :: r :: more

/-- Follows the spec's words: the rebuilt free list an open over an
existing image must produce. -/
def specFreeRuns (blocks : List Block) : List FreeBlockInfo :=
  specFreeRunsFrom blocks 0

/-- The operations of the external interface that touch handle or inode
state (the operations the invariant claims quantify over). -/
inductive FsOp where
  | mkfile : String → FsOp
  | openf : String → FileMode → FsOp
  | closef : Int → FsOp
  | readf : Int → Nat → FsOp
  | writef : Int → List Nat → FsOp
  | rollbackf : Int → Nat → FsOp

/-- State transition of one operation. -/
def applyOp (fs : FS) : FsOp → FS
  | FsOp.mkfile n => (fsCreate fs n).2
  | FsOp.openf n m => (fsOpen fs n m).2
  | FsOp.closef fd => (fsClose fs fd).2
  | FsOp.readf fd n => (fsRead fs fd n).2
  | FsOp.writef fd b => (fsWrite fs fd b).2
  | FsOp.rollbackf fd v => (fsRollback fs fd v).2

/-- A descriptor slot is healthy when, if valid, its inode pointer is
non-null and refers to an in-range, in-use inode slot. -/
def fdOk (fs : FS) (e : FileDescriptor) : Bool :=
  !e.is_valid ||
    (match e.inode with
     | none => false
     | some ii => decide (ii < fs.inodes.length) && (fs.inodeAt ii).is_used)

/-- The handle-table invariant of claim C10. -/
def FdInv (fs : FS) : Prop :=
  ∀ e ∈ fs.file_descriptors, fdOk fs e = true

instance (fs : FS) : Decidable (FdInv fs) :=
  inferInstanceAs (Decidable (∀ e ∈ fs.file_descriptors, fdOk fs e = true))

/-- Success condition of rollback_to_version, read off the checks of
cowfs.cpp lines 689-719. -/
def rollbackOk (fs : FS) (fd : Int) (v : Nat) : Prop :=
  0 ≤ fd ∧ fd < (fs.file_descriptors.length : Int) ∧
    (fs.fdAt fd.toNat).is_valid = true ∧
    ∃ ii, (fs.fdAt fd.toNat).inode = some ii ∧ v ≠ 0 ∧
      v ≤ (fs.inodeAt ii).version_count ∧
      ∃ w ∈ (fs.inodeAt ii).version_history, w.version_number = v

/-- Version numbers of an inode's history are 1, 2, ..., version_count
(invariant 7 of the spec). -/
def historyNumbered (ino : Inode) : Prop :=
  ino.version_history.map VersionInfo.version_number =
    List.range' 1 ino.version_count

instance (ino : Inode) : Decidable (historyNumbered ino) :=
  inferInstanceAs (Decidable (ino.version_history.map VersionInfo.version_number =
    List.range' 1 ino.version_count))

/-- Two states agree on everything but the block array and the free
list (the footprint of the reference-count walks). -/
def EqMeta (s t : FS) : Prop :=
  t.bs = s.bs ∧ t.mfl = s.mfl ∧ t.inodes = s.inodes ∧
    t.file_descriptors = s.file_descriptors

/-- The state built by the success path of rollback_to_version
(cowfs.cpp lines 726-752), written as a function of the pre-state, the
descriptor index, the inode index, the target version number and the
located target record. -/
def rollbackResult (fs : FS) (fdn ii v : Nat) (tgt : VersionInfo) : FS :=
  let kept := (fs.inodeAt ii).version_history.filter (fun w => decide (w.version_number ≤ v))
  let fs1 := (fs.inodeAt ii).version_history.foldl
    (fun s w =>
      if w.version_number ≤ v then s
      else if w.block_index < s.blocks.length then decrementBlockRefs s w.block_index
      else s) fs
  let fs2 := fs1.setInode ii
    { fs1.inodeAt ii with
      version_history := kept, first_block := tgt.block_index,
      size := tgt.size, version_count := v }
  let e2 := fs2.fdAt fdn
  fs2.setFd fdn
    { e2 with current_position := if e2.mode = FileMode.WRITE then tgt.size else 0 }

/-- The bytes of "hello". -/
def helloBytes : List Nat := [104, 101, 108, 108, 111]

/-- The bytes of "help!". -/
def helpBytes : List Nat := [104, 101, 108, 112, 33]

/-- The bytes of "hXYZ!". -/
def hxyzBytes : List Nat := [104, 88, 89, 90, 33]

/-- Fresh instance with BLOCK_SIZE 8 and 4 blocks. -/
def stA0 : FS := cowConstruct 8 32 2 32 none

/-- After create "a" (descriptor 0). -/
def stA1 : FS := (fsCreate stA0 "a").2

/-- After the first write, "hello". -/
def stA2 : FS := (fsWrite stA1 0 helloBytes).2

/-- After the second write, "help!". -/
def stA3 : FS := (fsWrite stA2 0 helpBytes).2

/-- After a fresh read-mode open of "a" (descriptor 1). -/
def stA4 : FS := (fsOpen stA3 "a" FileMode.READ).2

/-- Fresh instance with BLOCK_SIZE 2 and 8 blocks, so that files span
several blocks. -/
def stB0 : FS := cowConstruct 2 32 2 16 none

/-- After create "a" (descriptor 0). -/
def stB1 : FS := (fsCreate stB0 "a").2

/-- After the first write, "hello" (chain 0 -> 1 -> 2). -/
def stB2 : FS := (fsWrite stB1 0 helloBytes).2

/-- After the second write, "help!". -/
def stB3 : FS := (fsWrite stB2 0 helpBytes).2

/-- After a second write "hXYZ!" instead: its delta suffix spans two
blocks (chain 3 -> 4). -/
def stD3 : FS := (fsWrite stB2 0 hxyzBytes).2

/-- After rolling that file back to version 1. -/
def stD4 : FS := (fsRollback stD3 0 1).2

/-- A hand-built state with the two-block chain 1 -> 2, both reference
counts 1 (for example, the sole version of one file). -/
def stC : FS :=
  ⟨2, 32, [], [⟨false, 0, 0, [0, 0]⟩, ⟨true, 2, 1, [1, 1]⟩, ⟨true, 0, 1, [2, 2]⟩], [], []⟩

/-- An image as serialized by close: one file of 2 bytes in block 0,
block 1 free. -/
def imgInodes : List Inode := [⟨true, "a", 0, 2, 1, [⟨1, 2, 0, 0, 2, 0⟩]⟩, default]

/-- Blocks of that image: block 0 in use, block 1 free. -/
def imgBlocks : List Block := [⟨true, 0, 1, [104, 105]⟩, ⟨false, 0, 0, [0, 0]⟩]

/-- Construction over the existing image. -/
def stE : FS := cowConstruct 2 32 2 4 (some (imgInodes, imgBlocks))

/-- Fresh instance with BLOCK_SIZE 2 and 4 blocks, no files: all the
invariants of section 8 hold here. -/
def stF : FS := cowConstruct 2 32 2 8 none

/-! Theorems. -/

/-- C1: the read-after-write law fails on the code.  Starting from a
fresh image (BLOCK_SIZE 8), after create("a") and write "hello", the
write of B = "help!" succeeds returning n = 5, yet a fresh READ handle
obtained by open("a") reads back [112, 33, 0, 0, 0] — the delta suffix
"p!" plus zero padding — and not the bytes of B: write_delta_blocks
stores only the buffer suffix from delta_start (here 3) while read
treats the new chain as the full content. -/
theorem c1_read_after_write_fails :
    (fsWrite stA2 0 helpBytes).1 = 5 ∧
    (fsOpen stA3 "a" FileMode.READ).1 = 1 ∧
    (fsRead stA4 1 5).1 = some [112, 33, 0, 0, 0] ∧
    [112, 33, 0, 0, 0] ≠ helpBytes := by decide

/-- C2: refuted on the code.  With BLOCK_SIZE 2, the successful write
of "help!" over "hello" (a write with delta_size = 2 > 0) creates
version 2 with head block 3, but the newly allocated chain is the
single block [3] holding exactly the two delta-suffix bytes "p!"
[112, 33]: neither ceil(size / BLOCK_SIZE) = 3 blocks nor the entire
new 5-byte buffer, because write_delta_blocks copies from
buffer + delta_start and sizes the chain by size - delta_start. -/
theorem c2_chain_misses_full_content :
    (fsWrite stB2 0 helpBytes).1 = 5 ∧
    ((stB3.inodeAt 0).version_history.getD 1 default).delta_size = 2 ∧
    ((stB3.inodeAt 0).version_history.getD 1 default).block_index = 3 ∧
    chainFrom stB3 3 9 = [3] ∧
    (helpBytes.length + stB3.bs - 1) / stB3.bs = 3 ∧
    chainData stB3 3 9 = [112, 33] ∧
    chainData stB3 3 9 ≠ helpBytes := by decide

/-- C3: refuted on the code.  On the chain 1 -> 2 whose blocks both
have ref_count 1, decrement_block_refs(1) decrements and frees block 1,
sets the walk index to the recorded successor 2, but then the
unconditional advance at the bottom of the loop body (cowfs.cpp line
650) moves on to blocks[2].next_block = 0 without ever visiting block
2: the walk skips the recorded successor, and block 2 keeps ref_count 1
and in_use true instead of being decremented to 0 and freed. -/
theorem c3_decrement_skips_successor :
    decrementBlockRefs stC 1 =
      ⟨2, 32, [], [⟨false, 0, 0, [0, 0]⟩, ⟨false, 0, 0, [1, 1]⟩, ⟨true, 0, 1, [2, 2]⟩],
        [], []⟩ ∧
    ((decrementBlockRefs stC 1).blockAt 2).ref_count = 1 ∧
    ((decrementBlockRefs stC 1).blockAt 2).is_used = true := by decide

/-- C4: refuted on the code.  The sequence create("a"), write "hello",
write "hXYZ!", rollback to version 1 (BLOCK_SIZE 2) succeeds at every
step, yet afterwards block 4 — the second block of the discarded
version-2 chain 3 -> 4 — still has ref_count 1 while it is reachable
from no version chain of any in-use inode: the skipping walk of
decrement_block_refs (claim C3) freed block 3 but never decremented
block 4. -/
theorem c4_refcount_reachability_fails :
    (fsCreate stB0 "a").1 = 0 ∧
    (fsWrite stB1 0 helloBytes).1 = 5 ∧
    (fsWrite stB2 0 hxyzBytes).1 = 5 ∧
    (fsRollback stD3 0 1).1 = true ∧
    (stD4.blockAt 4).ref_count = 1 ∧
    reachableBlock stD4 4 = false := by decide

/-- C5: refuted on the code.  Constructed over an existing image whose
block 0 is in use and block 1 is free, the file system keeps the
single-run initializer (0, total_blocks) as its free list: the
constructor performs no rebuild scan after initialize_disk loads the
image, so the free list is not the coalesced runs of the free blocks
([(1, 1)] here) and the free run (0, 2) overlaps the in-use block 0,
breaking the partition of [0, total_blocks). -/
theorem c5_free_list_not_rebuilt :
    stE.free_blocks_list = [⟨0, 2⟩] ∧
    specFreeRuns stE.blocks = [⟨1, 1⟩] ∧
    stE.free_blocks_list ≠ specFreeRuns stE.blocks ∧
    (stE.blockAt 0).is_used = true ∧
    inFreeList stE 0 = true ∧
    freeUsedPartition stE = false := by decide

/-- C6: refuted on the code.  On a freshly created image with 4 blocks
and no files every invariant of section 8 holds (the partition check
and the ascending free list below), yet garbage_collect changes the
state: the sweep hands the run (0, 4) to add_to_free_list without
first clearing the stale free list, so the list becomes the duplicated
[(0, 4), (0, 4)] — not strictly ascending, overlapping, and an
observable change. -/
theorem c6_gc_duplicates_free_list :
    freeUsedPartition stF = true ∧
    ascendingRuns stF.free_blocks_list = true ∧
    stF.free_blocks_list = [⟨0, 4⟩] ∧
    (garbageCollect stF).free_blocks_list = [⟨0, 4⟩, ⟨0, 4⟩] ∧
    garbageCollect stF ≠ stF ∧
    ascendingRuns (garbageCollect stF).free_blocks_list = false := by decide

/-! Supporting lemmas. -/

theorem commonPrefixLen_le_left (o : List Nat) : ∀ n, commonPrefixLen o n ≤ o.length := by
  induction o with
  | nil => intro n; cases n <;> simp [commonPrefixLen]
  | cons a as ih =>
    intro n
    cases n with
    | nil => simp [commonPrefixLen]
    | cons b bs =>
      by_cases hab : a = b
      · simp only [commonPrefixLen, if_pos hab, List.length_cons]
        exact Nat.succ_le_succ (ih bs)
      · simp [commonPrefixLen, hab]

theorem commonPrefixLen_le_right (o : List Nat) : ∀ n, commonPrefixLen o n ≤ n.length := by
  induction o with
  | nil => intro n; cases n <;> simp [commonPrefixLen]
  | cons a as ih =>
    intro n
    cases n with
    | nil => simp [commonPrefixLen]
    | cons b bs =>
      by_cases hab : a = b
      · simp only [commonPrefixLen, if_pos hab, List.length_cons]
        exact Nat.succ_le_succ (ih bs)
      · simp [commonPrefixLen, hab]

theorem commonPrefixLen_full (o : List Nat) :
    ∀ n, commonPrefixLen o n = o.length → o.length = n.length → o = n := by
  induction o with
  | nil =>
    intro n _ hlen
    cases n with
    | nil => rfl
    | cons b bs => simp at hlen
  | cons a as ih =>
    intro n hp hlen
    cases n with
    | nil => simp at hlen
    | cons b bs =>
      by_cases hab : a = b
      · subst hab
        simp [commonPrefixLen] at hp hlen
        rw [ih bs (by omega) (by omega)]
      · simp [commonPrefixLen, hab] at hp

/-- C8: the delta detector matches its reference definition.  For all
byte buffers o (old) and n (new): equal buffers give (0, 0); otherwise
delta_start is the common-prefix length, which is bounded by
min(old_size, new_size); a pure truncation (delta_start = new_size with
new_size at most old_size) gives delta_size 0; a pure append
(delta_start = old_size with old_size < new_size) gives
delta_size = new_size - old_size; in the remaining general case
delta_size = (new_size - delta_start) - common_suffix with the
common-suffix scan bounded by min(old_size, new_size) - delta_start;
and in every case delta_start + delta_size is at most new_size (the
clamp). -/
theorem c8_find_delta_matches_reference (o n : List Nat) :
    (o = n → findDelta o n = (0, 0)) ∧
    (¬ (o.length = n.length ∧ o = n) → (findDelta o n).1 = commonPrefixLen o n) ∧
    commonPrefixLen o n ≤ min o.length n.length ∧
    ((findDelta o n).1 = n.length → n.length ≤ o.length → (findDelta o n).2 = 0) ∧
    ((findDelta o n).1 = o.length → o.length < n.length →
      (findDelta o n).2 = n.length - o.length) ∧
    (¬ (o.length = n.length ∧ o = n) →
      ¬ (commonPrefixLen o n = n.length ∧ n.length < o.length) →
      ¬ (commonPrefixLen o n = o.length ∧ o.length < n.length) →
      (findDelta o n).2 = n.length - commonPrefixLen o n -
        suffixScan o n 0
          (min (o.length - commonPrefixLen o n) (n.length - commonPrefixLen o n))) ∧
    (findDelta o n).1 + (findDelta o n).2 ≤ n.length := by
  have hL := commonPrefixLen_le_left o n
  have hR := commonPrefixLen_le_right o n
  have hmin : commonPrefixLen o n ≤ min o.length n.length := by omega
  by_cases h1 : o.length = n.length ∧ o = n
  · have hfd : findDelta o n = (0, 0) := by simp only [findDelta, if_pos h1]
    obtain ⟨hlen, heq⟩ := h1
    have p1 : o = n → findDelta o n = (0, 0) := fun _ => hfd
    have p2 : ¬ (o.length = n.length ∧ o = n) → (findDelta o n).1 = commonPrefixLen o n :=
      fun h => absurd ⟨hlen, heq⟩ h
    have p4 : (findDelta o n).1 = n.length → n.length ≤ o.length → (findDelta o n).2 = 0 := by
      intro _ _; rw [hfd]
    have p5 : (findDelta o n).1 = o.length → o.length < n.length →
        (findDelta o n).2 = n.length - o.length := by
      intro _ hb; omega
    have p6 : ¬ (o.length = n.length ∧ o = n) →
        ¬ (commonPrefixLen o n = n.length ∧ n.length < o.length) →
        ¬ (commonPrefixLen o n = o.length ∧ o.length < n.length) →
        (findDelta o n).2 = n.length - commonPrefixLen o n -
          suffixScan o n 0
            (min (o.length - commonPrefixLen o n) (n.length - commonPrefixLen o n)) :=
      fun h => absurd ⟨hlen, heq⟩ h
    have p7 : (findDelta o n).1 + (findDelta o n).2 ≤ n.length := by
      rw [hfd]; show 0 + 0 ≤ n.length; omega
    exact ⟨p1, p2, hmin, p4, p5, p6, p7⟩
  · have p1 : o = n → findDelta o n = (0, 0) := by
      intro heq; exact absurd ⟨by rw [heq], heq⟩ h1
    by_cases h2 : commonPrefixLen o n = n.length ∧ n.length < o.length
    · have hfd : findDelta o n = (commonPrefixLen o n, 0) := by
        simp only [findDelta, if_neg h1, if_pos h2]
      have p2 : ¬ (o.length = n.length ∧ o = n) → (findDelta o n).1 = commonPrefixLen o n := by
        intro _; rw [hfd]
      have p4 : (findDelta o n).1 = n.length → n.length ≤ o.length → (findDelta o n).2 = 0 := by
        intro _ _; rw [hfd]
      have p5 : (findDelta o n).1 = o.length → o.length < n.length →
          (findDelta o n).2 = n.length - o.length := by
        intro ha hb
        rw [hfd] at ha ⊢
        replace ha : commonPrefixLen o n = o.length := ha
        show (0 : Nat) = n.length - o.length
        omega
      have p6 : ¬ (o.length = n.length ∧ o = n) →
          ¬ (commonPrefixLen o n = n.length ∧ n.length < o.length) →
          ¬ (commonPrefixLen o n = o.length ∧ o.length < n.length) →
          (findDelta o n).2 = n.length - commonPrefixLen o n -
            suffixScan o n 0
              (min (o.length - commonPrefixLen o n) (n.length - commonPrefixLen o n)) :=
        fun _ h => absurd h2 h
      have p7 : (findDelta o n).1 + (findDelta o n).2 ≤ n.length := by
        rw [hfd]; show commonPrefixLen o n + 0 ≤ n.length; omega
      exact ⟨p1, p2, hmin, p4, p5, p6, p7⟩
    · by_cases h3 : commonPrefixLen o n = o.length ∧ o.length < n.length
      · have hfd : findDelta o n = (commonPrefixLen o n, n.length - o.length) := by
          simp only [findDelta, if_neg h1, if_neg h2, if_pos h3]
        have p2 : ¬ (o.length = n.length ∧ o = n) → (findDelta o n).1 = commonPrefixLen o n := by
          intro _; rw [hfd]
        have p4 : (findDelta o n).1 = n.length → n.length ≤ o.length → (findDelta o n).2 = 0 := by
          intro ha hb
          rw [hfd] at ha ⊢
          replace ha : commonPrefixLen o n = n.length := ha
          show n.length - o.length = 0
          omega
        have p5 : (findDelta o n).1 = o.length → o.length < n.length →
            (findDelta o n).2 = n.length - o.length := by
          intro _ _; rw [hfd]
        have p6 : ¬ (o.length = n.length ∧ o = n) →
            ¬ (commonPrefixLen o n = n.length ∧ n.length < o.length) →
            ¬ (commonPrefixLen o n = o.length ∧ o.length < n.length) →
            (findDelta o n).2 = n.length - commonPrefixLen o n -
              suffixScan o n 0
                (min (o.length - commonPrefixLen o n) (n.length - commonPrefixLen o n)) :=
          fun _ _ h => absurd h3 h
        have p7 : (findDelta o n).1 + (findDelta o n).2 ≤ n.length := by
          rw [hfd]
          show commonPrefixLen o n + (n.length - o.length) ≤ n.length
          omega
        exact ⟨p1, p2, hmin, p4, p5, p6, p7⟩
      · have hclamp : ¬ (n.length < commonPrefixLen o n +
            (n.length - commonPrefixLen o n -
              suffixScan o n 0 (min (o.length - commonPrefixLen o n)
                (n.length - commonPrefixLen o n)))) := by omega
        have hfd : findDelta o n = (commonPrefixLen o n,
            n.length - commonPrefixLen o n -
              suffixScan o n 0 (min (o.length - commonPrefixLen o n)
                (n.length - commonPrefixLen o n))) := by
          simp [findDelta, h1, h2, h3, hclamp]
        have p2 : ¬ (o.length = n.length ∧ o = n) → (findDelta o n).1 = commonPrefixLen o n := by
          intro _; rw [hfd]
        have p4 : (findDelta o n).1 = n.length → n.length ≤ o.length → (findDelta o n).2 = 0 := by
          intro ha hb
          rw [hfd] at ha ⊢
          replace ha : commonPrefixLen o n = n.length := ha
          have honeq : o.length = n.length := by omega
          exact absurd ⟨honeq, commonPrefixLen_full o n (by omega) honeq⟩ h1
        have p5 : (findDelta o n).1 = o.length → o.length < n.length →
            (findDelta o n).2 = n.length - o.length := by
          intro ha hb
          rw [hfd] at ha ⊢
          replace ha : commonPrefixLen o n = o.length := ha
          exact absurd ⟨ha, hb⟩ h3
        have p6 : ¬ (o.length = n.length ∧ o = n) →
            ¬ (commonPrefixLen o n = n.length ∧ n.length < o.length) →
            ¬ (commonPrefixLen o n = o.length ∧ o.length < n.length) →
            (findDelta o n).2 = n.length - commonPrefixLen o n -
              suffixScan o n 0
                (min (o.length - commonPrefixLen o n) (n.length - commonPrefixLen o n)) := by
          intro _ _ _; rw [hfd]
        have p7 : (findDelta o n).1 + (findDelta o n).2 ≤ n.length := by
          rw [hfd]
          show commonPrefixLen o n +
            (n.length - commonPrefixLen o n -
              suffixScan o n 0 (min (o.length - commonPrefixLen o n)
                (n.length - commonPrefixLen o n))) ≤ n.length
          omega
        exact ⟨p1, p2, hmin, p4, p5, p6, p7⟩

theorem list_getD_set_self {α : Type} (l : List α) (i : Nat) (x d : α)
    (h : i < l.length) : (l.set i x).getD i d = x := by
  induction l generalizing i with
  | nil => simp at h
  | cons a t ih =>
    cases i with
    | zero => rfl
    | succ j => simpa using ih j (by simpa using h)

theorem writePos_writePos (fs : FS) (i : Nat) (a b : Nat) :
    (fs.writePos i a).writePos i b = fs.writePos i b := by
  by_cases h : i < fs.file_descriptors.length
  · unfold FS.writePos FS.setFd FS.fdAt
    simp only [list_getD_set_self _ _ _ _ h, List.set_set]
  · have hle : fs.file_descriptors.length ≤ i := Nat.le_of_not_lt h
    unfold FS.writePos FS.setFd
    simp only [List.set_eq_of_length_le hle]

theorem fsRead_state (fs : FS) (fd : Int) (n : Nat) :
    (fsRead fs fd n).2 = fs ∨ ∃ p, (fsRead fs fd n).2 = fs.writePos fd.toNat p := by
  unfold fsRead
  dsimp only
  repeat' first
    | exact Or.inl rfl
    | exact Or.inr ⟨_, rfl⟩
    | split

/-- C7: confirmed.  Whenever a write reaches the delta detector (valid
WRITE handle with an inode, a nonempty buffer, an existing version and
a nonzero current size, with the read-back of the current content
succeeding) and the detector reports delta_size = 0, write returns the
requested byte count, and the final state differs from the initial one
only in that the handle cursor is set to that count: no version record,
no inode field, no block and no free-list entry changes. -/
theorem c7_noop_write (fs : FS) (fd : Int) (ii : Nat) (buffer old : List Nat)
    (hlo : 0 ≤ fd) (hhi : fd < (fs.file_descriptors.length : Int))
    (hv : (fs.fdAt fd.toNat).is_valid = true)
    (hm : (fs.fdAt fd.toNat).mode = FileMode.WRITE)
    (hi : (fs.fdAt fd.toNat).inode = some ii)
    (hb : buffer.length ≠ 0)
    (hvc : (fs.inodeAt ii).version_count ≠ 0)
    (hos : (fs.inodeAt ii).size ≠ 0)
    (hread : (fsRead (fs.writePos fd.toNat 0) fd (fs.inodeAt ii).size).1 = some old)
    (hol : old.length = (fs.inodeAt ii).size)
    (hdsz : (findDelta old buffer).2 = 0) :
    fsWrite fs fd buffer = ((buffer.length : Int), fs.writePos fd.toNat buffer.length) := by
  have hcheck : ¬ (fd < 0 ∨ (fs.file_descriptors.length : Int) ≤ fd ∨
      ¬ (fs.fdAt fd.toNat).is_valid) := by
    push_neg
    exact ⟨hlo, hhi, hv⟩
  have hmode : ¬ ((fs.fdAt fd.toNat).mode ≠ FileMode.WRITE) := not_not_intro hm
  simp only [fsWrite, if_neg hcheck, if_neg hmode, hi, if_neg hb, if_neg hvc, if_neg hos,
    hread, if_neg (not_not_intro hol), fsWriteCommit, if_pos hdsz]
  rcases fsRead_state (fs.writePos fd.toNat 0) fd (fs.inodeAt ii).size with hst | ⟨p, hst⟩ <;>
    simp only [hst, writePos_writePos]

theorem list_set_getD_self {α : Type} (l : List α) (i : Nat) (d : α) :
    l.set i (l.getD i d) = l := by
  induction l generalizing i with
  | nil => rfl
  | cons a t ih =>
    cases i with
    | zero => rfl
    | succ j => simpa using ih j

theorem eqMeta_refl (s : FS) : EqMeta s s := ⟨rfl, rfl, rfl, rfl⟩

theorem eqMeta_trans {a b c : FS} (h1 : EqMeta a b) (h2 : EqMeta b c) : EqMeta a c :=
  ⟨h2.1.trans h1.1, h2.2.1.trans h1.2.1, h2.2.2.1.trans h1.2.2.1, h2.2.2.2.trans h1.2.2.2⟩

theorem eqMeta_setBlock (s : FS) (i : Nat) (b : Block) : EqMeta s (s.setBlock i b) :=
  ⟨rfl, rfl, rfl, rfl⟩

theorem eqMeta_freeBlock (s : FS) (i : Nat) : EqMeta s (freeBlock s i) := by
  unfold freeBlock
  split
  · exact eqMeta_setBlock s i _
  · exact eqMeta_refl s

theorem eqMeta_decRefsAux : ∀ (fuel : Nat) (s : FS) (bi : Nat), EqMeta s (decRefsAux s bi fuel) := by
  intro fuel
  induction fuel with
  | zero => intro s bi; exact eqMeta_refl s
  | succ f ih =>
    intro s bi
    unfold decRefsAux
    dsimp only
    split
    · split
      · split
        · exact eqMeta_trans
            (eqMeta_trans (eqMeta_setBlock s bi _) (eqMeta_freeBlock _ bi)) (ih _ _)
        · exact eqMeta_setBlock s bi _
      · exact ih s _
    · exact eqMeta_refl s

theorem eqMeta_decrementBlockRefs (s : FS) (bi : Nat) : EqMeta s (decrementBlockRefs s bi) :=
  eqMeta_decRefsAux _ s bi

theorem eqMeta_rollbackFold (v : Nat) :
    ∀ (l : List VersionInfo) (s : FS),
      EqMeta s (l.foldl
        (fun s w =>
          if w.version_number ≤ v then s
          else if w.block_index < s.blocks.length then decrementBlockRefs s w.block_index
          else s) s) := by
  intro l
  induction l with
  | nil => intro s; exact eqMeta_refl s
  | cons w t ih =>
    intro s
    rw [List.foldl_cons]
    refine eqMeta_trans ?_ (ih _)
    split
    · exact eqMeta_refl s
    · split
      · exact eqMeta_decrementBlockRefs s _
      · exact eqMeta_refl s

theorem EqMeta.inodes_eq {s t : FS} (h : EqMeta s t) : t.inodes = s.inodes := h.2.2.1

theorem EqMeta.fds_eq {s t : FS} (h : EqMeta s t) :
    t.file_descriptors = s.file_descriptors := h.2.2.2

theorem EqMeta.inodeAt_eq {s t : FS} (h : EqMeta s t) (i : Nat) : t.inodeAt i = s.inodeAt i := by
  unfold FS.inodeAt
  rw [h.2.2.1]

theorem EqMeta.fdAt_eq {s t : FS} (h : EqMeta s t) (i : Nat) : t.fdAt i = s.fdAt i := by
  unfold FS.fdAt
  rw [h.2.2.2]

theorem foldl_skip {α β : Type} (f : β → α → β) (p : α → Prop)
    (hf : ∀ s a, p a → f s a = s) :
    ∀ (l : List α) (s : β), (∀ a ∈ l, p a) → l.foldl f s = s := by
  intro l
  induction l with
  | nil => intro s _; rfl
  | cons a t ih =>
    intro s h
    rw [List.foldl_cons, hf s a (h a (by simp))]
    exact ih s (fun x hx => h x (by simp [hx]))

theorem find?_filter_of_imp {α : Type} (l : List α) (p q : α → Bool)
    (h : ∀ x, p x = true → q x = true) : (l.filter q).find? p = l.find? p := by
  induction l with
  | nil => rfl
  | cons a t ih =>
    cases hp : p a with
    | true =>
      rw [List.filter_cons_of_pos (h a hp), List.find?_cons_of_pos _ hp,
        List.find?_cons_of_pos _ hp]
    | false =>
      have hp2 : ¬ p a = true := by simp [hp]
      by_cases hq : q a = true
      · rw [List.filter_cons_of_pos hq, List.find?_cons_of_neg _ hp2,
          List.find?_cons_of_neg _ hp2, ih]
      · rw [List.filter_cons_of_neg (by simpa using hq), List.find?_cons_of_neg _ hp2, ih]

theorem numbered_filter_le (v : Nat) :
    ∀ (l : List VersionInfo) (s k : Nat),
      l.map VersionInfo.version_number = List.range' s k →
      s ≠ 0 →
      l.filter (fun w => decide (w.version_number ≤ v)) = l.take (v + 1 - s) := by
  intro l
  induction l with
  | nil => intro s k _ _; simp
  | cons w t ih =>
    intro s k h hs
    cases k with
    | zero => simp at h
    | succ k2 =>
      rw [List.range'_succ] at h
      simp only [List.map_cons, List.cons.injEq] at h
      obtain ⟨hw, ht⟩ := h
      by_cases hle : w.version_number ≤ v
      · rw [List.filter_cons_of_pos (by simpa using hle)]
        rw [ih (s + 1) k2 ht (by omega)]
        have hsv : s ≤ v := by omega
        have h1 : v + 1 - s = (v + 1 - (s + 1)) + 1 := by omega
        rw [h1, List.take_succ_cons]
      · rw [List.filter_cons_of_neg (by simpa using hle)]
        have h0 : v + 1 - s = 0 := by omega
        rw [h0, List.take_zero]
        rw [ih (s + 1) k2 ht (by omega)]
        have h00 : v + 1 - (s + 1) = 0 := by omega
        rw [h00, List.take_zero]

theorem numbered_find_eq (v : Nat) :
    ∀ (l : List VersionInfo) (s k : Nat),
      l.map VersionInfo.version_number = List.range' s k →
      s ≤ v → v < s + k →
      l.find? (fun w => w.version_number == v) = some (l.getD (v - s) default) := by
  intro l
  induction l with
  | nil =>
    intro s k h h1 h2
    cases k with
    | zero => omega
    | succ k2 => simp at h
  | cons w t ih =>
    intro s k h h1 h2
    cases k with
    | zero => simp at h
    | succ k2 =>
      rw [List.range'_succ] at h
      simp only [List.map_cons, List.cons.injEq] at h
      obtain ⟨hw, ht⟩ := h
      by_cases hv : v = s
      · subst hv
        rw [List.find?_cons_of_pos _ (by simp [hw])]
        simp
      · have hlt : s < v := by omega
        rw [List.find?_cons_of_neg _ (by simp [hw]; omega)]
        rw [ih (s + 1) k2 ht (by omega) (by omega)]
        have hvs : v - s = (v - (s + 1)) + 1 := by omega
        rw [hvs]
        rfl

theorem fsRollback_explicit (fs : FS) (fd : Int) (v : Nat) (ii : Nat) (tgt : VersionInfo)
    (hlo : 0 ≤ fd) (hhi : fd < (fs.file_descriptors.length : Int))
    (hv : (fs.fdAt fd.toNat).is_valid = true)
    (hi : (fs.fdAt fd.toNat).inode = some ii)
    (hv0 : v ≠ 0) (hvc : v ≤ (fs.inodeAt ii).version_count)
    (hf : (fs.inodeAt ii).version_history.find? (fun w => w.version_number == v) = some tgt) :
    fsRollback fs fd v = (true, rollbackResult fs fd.toNat ii v tgt) := by
  have hcheck : ¬ (fd < 0 ∨ (fs.file_descriptors.length : Int) ≤ fd ∨
      ¬ (fs.fdAt fd.toNat).is_valid) := by
    push_neg
    exact ⟨hlo, hhi, hv⟩
  have h2 : ¬ (v = 0 ∨ (fs.inodeAt ii).version_count < v) := by
    push_neg
    exact ⟨hv0, by omega⟩
  simp only [fsRollback, if_neg hcheck, hi, if_neg h2, hf, rollbackResult]

theorem fsRollback_true_iff (fs : FS) (fd : Int) (v : Nat) :
    (fsRollback fs fd v).1 = true ↔ rollbackOk fs fd v := by
  constructor
  · intro hs
    by_cases h0 : fd < 0 ∨ (fs.file_descriptors.length : Int) ≤ fd ∨
        ¬ (fs.fdAt fd.toNat).is_valid
    · rw [fsRollback, if_pos h0] at hs
      simp at hs
    · push_neg at h0
      obtain ⟨hlo, hhi, hv⟩ := h0
      have h0 : ¬ (fd < 0 ∨ (fs.file_descriptors.length : Int) ≤ fd ∨
          ¬ (fs.fdAt fd.toNat).is_valid) := by
        push_neg
        exact ⟨hlo, hhi, hv⟩
      rw [fsRollback, if_neg h0] at hs
      dsimp only at hs
      cases hi : (fs.fdAt fd.toNat).inode with
      | none => rw [hi] at hs; simp at hs
      | some ii =>
        rw [hi] at hs
        dsimp only at hs
        by_cases h2 : v = 0 ∨ (fs.inodeAt ii).version_count < v
        · rw [if_pos h2] at hs; simp at hs
        · rw [if_neg h2] at hs
          push_neg at h2
          cases hfind : (fs.inodeAt ii).version_history.find?
              (fun w => w.version_number == v) with
          | none => rw [hfind] at hs; simp at hs
          | some tgt =>
            refine ⟨hlo, hhi, hv, ii, hi, h2.1, h2.2, tgt,
              List.mem_of_find?_eq_some hfind, ?_⟩
            have := List.find?_some hfind
            simpa using this
  · rintro ⟨hlo, hhi, hv, ii, hi, hv0, hvc, w, hmem, hnum⟩
    have hfind : ((fs.inodeAt ii).version_history.find?
        (fun w => w.version_number == v)).isSome := by
      rw [List.find?_isSome]
      exact ⟨w, hmem, by simpa using hnum⟩
    cases hf : (fs.inodeAt ii).version_history.find? (fun w => w.version_number == v) with
    | none => rw [hf] at hfind; simp at hfind
    | some tgt =>
      rw [fsRollback_explicit fs fd v ii tgt hlo hhi hv hi hv0 hvc hf]

theorem rollbackResult_inodeAt (fs : FS) (fdn ii v : Nat) (tgt : VersionInfo)
    (hii : ii < fs.inodes.length) :
    (rollbackResult fs fdn ii v tgt).inodeAt ii =
      { fs.inodeAt ii with
        version_history := (fs.inodeAt ii).version_history.filter
          (fun w => decide (w.version_number ≤ v)),
        first_block := tgt.block_index, size := tgt.size, version_count := v } := by
  have hm := eqMeta_rollbackFold v (fs.inodeAt ii).version_history fs
  unfold FS.inodeAt at hm
  unfold rollbackResult
  dsimp only
  unfold FS.setFd FS.setInode FS.inodeAt FS.fdAt
  dsimp only
  rw [hm.2.2.1]
  exact list_getD_set_self _ _ _ _ hii

theorem rollbackResult_fdAt (fs : FS) (fdn ii v : Nat) (tgt : VersionInfo)
    (hfdn : fdn < fs.file_descriptors.length) :
    (rollbackResult fs fdn ii v tgt).fdAt fdn =
      { fs.fdAt fdn with
        current_position := if (fs.fdAt fdn).mode = FileMode.WRITE then tgt.size else 0 } := by
  have hm := eqMeta_rollbackFold v (fs.inodeAt ii).version_history fs
  unfold FS.inodeAt at hm
  unfold rollbackResult
  dsimp only
  unfold FS.setFd FS.setInode FS.inodeAt FS.fdAt
  dsimp only
  rw [hm.2.2.2]
  exact list_getD_set_self _ _ _ _ hfdn

theorem rollbackResult_lengths (fs : FS) (fdn ii v : Nat) (tgt : VersionInfo) :
    (rollbackResult fs fdn ii v tgt).file_descriptors.length = fs.file_descriptors.length ∧
    (rollbackResult fs fdn ii v tgt).inodes.length = fs.inodes.length := by
  have hm := eqMeta_rollbackFold v (fs.inodeAt ii).version_history fs
  unfold FS.inodeAt at hm
  unfold rollbackResult
  dsimp only
  unfold FS.setFd FS.setInode FS.inodeAt FS.fdAt
  dsimp only
  constructor
  · rw [List.length_set, hm.2.2.2]
  · rw [List.length_set, hm.2.2.1]

theorem rollbackResult_self (X : FS) (fdn ii v : Nat) (tgt : VersionInfo)
    (h1 : (X.inodeAt ii).version_history.filter (fun w => decide (w.version_number ≤ v)) =
      (X.inodeAt ii).version_history)
    (h2 : (X.inodeAt ii).first_block = tgt.block_index)
    (h3 : (X.inodeAt ii).size = tgt.size)
    (h4 : (X.inodeAt ii).version_count = v)
    (h5 : (X.fdAt fdn).current_position =
      (if (X.fdAt fdn).mode = FileMode.WRITE then tgt.size else 0)) :
    rollbackResult X fdn ii v tgt = X := by
  have hall : ∀ w ∈ (X.inodeAt ii).version_history, w.version_number ≤ v :=
    fun w hw => of_decide_eq_true (List.filter_eq_self.mp h1 w hw)
  unfold rollbackResult
  dsimp only
  rw [h1]
  have hfold : List.foldl
      (fun (s : FS) (w : VersionInfo) =>
        if w.version_number ≤ v then s
        else if w.block_index < s.blocks.length then decrementBlockRefs s w.block_index
        else s) X (X.inodeAt ii).version_history = X :=
    foldl_skip _ (fun (w : VersionInfo) => w.version_number ≤ v) (fun s a ha => if_pos ha) _ _ hall
  rw [hfold]
  have hino : ({ X.inodeAt ii with
      version_history := (X.inodeAt ii).version_history,
      first_block := tgt.block_index, size := tgt.size, version_count := v } : Inode) =
      X.inodeAt ii := by
    rw [← h2, ← h3, ← h4]
  rw [hino]
  have hsetI : X.setInode ii (X.inodeAt ii) = X := by
    unfold FS.setInode FS.inodeAt
    rw [list_set_getD_self]
  rw [hsetI]
  have hfd : ({ X.fdAt fdn with
      current_position := if (X.fdAt fdn).mode = FileMode.WRITE then tgt.size else 0 } :
        FileDescriptor) = X.fdAt fdn := by
    rw [← h5]
  rw [hfd]
  unfold FS.setFd FS.fdAt
  rw [list_set_getD_self]

/-- C9: confirmed.  rollback_to_version succeeds exactly when the
descriptor is in range and valid, its inode pointer is non-null, the
target v is nonzero and at most version_count, and a record numbered v
is present in the history; on success (for a history numbered
1..version_count as invariant 7 states) the history is truncated to its
first v records, first_block and size are taken from record v,
version_count becomes v, and the cursor moves to the restored size for
WRITE handles and to 0 otherwise; and repeating the same rollback right
away succeeds and changes nothing further. -/
theorem c9_rollback_correct (fs : FS) (fd : Int) (v : Nat) :
    ((fsRollback fs fd v).1 = true ↔ rollbackOk fs fd v) ∧
    (∀ ii, (fs.fdAt fd.toNat).inode = some ii →
      historyNumbered (fs.inodeAt ii) →
      (fsRollback fs fd v).1 = true →
      (fsRollback fs fd v).2.inodeAt ii =
        { fs.inodeAt ii with
          version_history := (fs.inodeAt ii).version_history.take v,
          first_block := ((fs.inodeAt ii).version_history.getD (v - 1) default).block_index,
          size := ((fs.inodeAt ii).version_history.getD (v - 1) default).size,
          version_count := v } ∧
      ((fsRollback fs fd v).2.fdAt fd.toNat).current_position =
        (if (fs.fdAt fd.toNat).mode = FileMode.WRITE
         then ((fs.inodeAt ii).version_history.getD (v - 1) default).size else 0)) ∧
    ((fsRollback fs fd v).1 = true →
      fsRollback (fsRollback fs fd v).2 fd v = (true, (fsRollback fs fd v).2)) := by
  refine ⟨fsRollback_true_iff fs fd v, ?_, ?_⟩
  · intro ii hi hnum hs
    obtain ⟨hlo, hhi, hv, ii2, hi2, hv0, hvc, w, hmem, hwnum⟩ :=
      (fsRollback_true_iff fs fd v).mp hs
    rw [hi] at hi2
    have hii2 : ii = ii2 := Option.some.inj hi2
    subst hii2
    have hnum2 : (fs.inodeAt ii).version_history.map VersionInfo.version_number =
        List.range' 1 (fs.inodeAt ii).version_count := hnum
    have hfind : (fs.inodeAt ii).version_history.find? (fun w => w.version_number == v) =
        some ((fs.inodeAt ii).version_history.getD (v - 1) default) :=
      numbered_find_eq v (fs.inodeAt ii).version_history 1
        (fs.inodeAt ii).version_count hnum2 (by omega) (by omega)
    have hroll := fsRollback_explicit fs fd v ii _ hlo hhi hv hi hv0 hvc hfind
    rw [hroll]
    dsimp only
    have hii : ii < fs.inodes.length := by
      by_contra hcon
      have hdef : fs.inodeAt ii = default := by
        unfold FS.inodeAt
        exact List.getD_eq_default _ _ (Nat.le_of_not_lt hcon)
      rw [hdef] at hvc
      simp [default] at hvc
      omega
    have hfdn : fd.toNat < fs.file_descriptors.length := by omega
    constructor
    · rw [rollbackResult_inodeAt fs fd.toNat ii v _ hii]
      have hfil := numbered_filter_le v (fs.inodeAt ii).version_history 1
        (fs.inodeAt ii).version_count hnum2 (by omega)
      rw [hfil]
      have hv1 : v + 1 - 1 = v := by omega
      rw [hv1]
    · rw [rollbackResult_fdAt fs fd.toNat ii v _ hfdn]
  · intro hs
    obtain ⟨hlo, hhi, hv, ii, hi, hv0, hvc, w, hmem, hwnum⟩ :=
      (fsRollback_true_iff fs fd v).mp hs
    have hsome : ((fs.inodeAt ii).version_history.find?
        (fun w => w.version_number == v)).isSome :=
      List.find?_isSome.mpr ⟨w, hmem, by simpa using hwnum⟩
    cases hf : (fs.inodeAt ii).version_history.find? (fun w => w.version_number == v) with
    | none => rw [hf] at hsome; simp at hsome
    | some tgt =>
      have hroll := fsRollback_explicit fs fd v ii tgt hlo hhi hv hi hv0 hvc hf
      rw [hroll]
      dsimp only
      have hii : ii < fs.inodes.length := by
        by_contra hcon
        have hdef : fs.inodeAt ii = default := by
          unfold FS.inodeAt
          exact List.getD_eq_default _ _ (Nat.le_of_not_lt hcon)
        rw [hdef] at hvc
        simp [default] at hvc
        omega
      have hfdn : fd.toNat < fs.file_descriptors.length := by omega
      have hXino := rollbackResult_inodeAt fs fd.toNat ii v tgt hii
      have hXfd := rollbackResult_fdAt fs fd.toNat ii v tgt hfdn
      have hXlen := rollbackResult_lengths fs fd.toNat ii v tgt
      have hv2 : ((rollbackResult fs fd.toNat ii v tgt).fdAt fd.toNat).is_valid = true := by
        rw [hXfd]
        exact hv
      have hhi2 : fd < ((rollbackResult fs fd.toNat ii v tgt).file_descriptors.length : Int) := by
        rw [hXlen.1]
        exact hhi
      have hi2 : ((rollbackResult fs fd.toNat ii v tgt).fdAt fd.toNat).inode = some ii := by
        rw [hXfd]
        exact hi
      have hvc2 : v ≤ ((rollbackResult fs fd.toNat ii v tgt).inodeAt ii).version_count := by
        rw [hXino]
      have hq : ∀ x : VersionInfo, (x.version_number == v) = true →
          decide (x.version_number ≤ v) = true := by
        intro x hx
        simp at hx ⊢
        omega
      have hf2 : ((rollbackResult fs fd.toNat ii v tgt).inodeAt ii).version_history.find?
          (fun w => w.version_number == v) = some tgt := by
        rw [hXino]
        show ((fs.inodeAt ii).version_history.filter
            (fun w => decide (w.version_number ≤ v))).find?
            (fun w => w.version_number == v) = some tgt
        rw [find?_filter_of_imp _ _ _ hq]
        exact hf
      have hroll2 := fsRollback_explicit (rollbackResult fs fd.toNat ii v tgt) fd v ii tgt
        hlo hhi2 hv2 hi2 hv0 hvc2 hf2
      rw [hroll2]
      have hXX : rollbackResult (rollbackResult fs fd.toNat ii v tgt) fd.toNat ii v tgt =
          rollbackResult fs fd.toNat ii v tgt := by
        apply rollbackResult_self
        · rw [hXino]
          show ((fs.inodeAt ii).version_history.filter
              (fun w => decide (w.version_number ≤ v))).filter
              (fun w => decide (w.version_number ≤ v)) =
            (fs.inodeAt ii).version_history.filter (fun w => decide (w.version_number ≤ v))
          apply List.filter_eq_self.mpr
          intro a ha
          exact (List.mem_filter.mp ha).2
        · rw [hXino]
        · rw [hXino]
        · rw [hXino]
        · rw [hXfd]
      rw [hXX]

/-- Witness for C7 at a concrete state: rewriting "hello" over "hello"
is accepted as a no-op. -/
theorem c7_noop_write_witness :
    fsWrite stA2 0 helloBytes = ((5 : Int), stA2.writePos 0 5) :=
  c7_noop_write stA2 0 0 helloBytes helloBytes (by decide) (by decide) (by decide)
    (by decide) (by decide) (by decide) (by decide) (by decide) (by decide) (by decide)
    (by decide)

/-- Witness for C8 at concrete buffers "hello" and "help!". -/
theorem c8_find_delta_witness :
    (findDelta helloBytes helpBytes).1 = commonPrefixLen helloBytes helpBytes ∧
    (findDelta helloBytes helpBytes).2 =
      helpBytes.length - commonPrefixLen helloBytes helpBytes -
        suffixScan helloBytes helpBytes 0
          (min (helloBytes.length - commonPrefixLen helloBytes helpBytes)
            (helpBytes.length - commonPrefixLen helloBytes helpBytes)) ∧
    (findDelta helloBytes helpBytes).1 + (findDelta helloBytes helpBytes).2 ≤
      helpBytes.length :=
  ⟨(c8_find_delta_matches_reference helloBytes helpBytes).2.1 (by decide),
   (c8_find_delta_matches_reference helloBytes helpBytes).2.2.2.2.2.1 (by decide) (by decide)
     (by decide),
   (c8_find_delta_matches_reference helloBytes helpBytes).2.2.2.2.2.2⟩

/-- Witness for C9 at a concrete state: roll the two-version file of
stD3 back to version 1, then roll it back again. -/
theorem c9_rollback_witness :
    (fsRollback stD3 0 1).1 = true ∧
    (fsRollback stD3 0 1).2.inodeAt 0 =
      { stD3.inodeAt 0 with
        version_history := (stD3.inodeAt 0).version_history.take 1,
        first_block := ((stD3.inodeAt 0).version_history.getD 0 default).block_index,
        size := ((stD3.inodeAt 0).version_history.getD 0 default).size,
        version_count := 1 } ∧
    fsRollback (fsRollback stD3 0 1).2 0 1 = (true, (fsRollback stD3 0 1).2) :=
  ⟨by decide,
   ((c9_rollback_correct stD3 0 1).2.1 0 (by decide) (by decide) (by decide)).1,
   (c9_rollback_correct stD3 0 1).2.2 (by decide)⟩

theorem list_getD_set_ne {α : Type} (l : List α) (i j : Nat) (x d : α) (h : j ≠ i) :
    (l.set i x).getD j d = l.getD j d := by
  induction l generalizing i j with
  | nil => rfl
  | cons a t ih =>
    cases i with
    | zero =>
      cases j with
      | zero => exact absurd rfl h
      | succ k => rfl
    | succ i2 =>
      cases j with
      | zero => rfl
      | succ k => simpa using ih i2 k (by omega)

theorem findIdx?_prop {α : Type} (p : α → Bool) (d : α) :
    ∀ (l : List α) (i : Nat), l.findIdx? p = some i →
      i < l.length ∧ p (l.getD i d) = true := by
  intro l
  induction l with
  | nil => intro i h; simp [List.findIdx?_nil] at h
  | cons a t ih =>
    intro i h
    have hcons : (a :: t).findIdx? p =
        if p a then some 0 else (t.findIdx? p).map (· + 1) := by
      simp [List.findIdx?_cons]
    rw [hcons] at h
    by_cases hp : p a = true
    · rw [if_pos hp] at h
      simp at h
      subst h
      exact ⟨by simp, hp⟩
    · rw [if_neg hp] at h
      cases hfi : t.findIdx? p with
      | none => rw [hfi] at h; simp at h
      | some j =>
        rw [hfi] at h
        simp at h
        subst h
        obtain ⟨hlt, hpj⟩ := ih j hfi
        exact ⟨by simpa using hlt, by simpa using hpj⟩

theorem fdInv_entry {fs : FS} (h : FdInv fs) (fdn : Nat)
    (hlt : fdn < fs.file_descriptors.length)
    (hv : (fs.fdAt fdn).is_valid = true) :
    ∃ ii, (fs.fdAt fdn).inode = some ii ∧ ii < fs.inodes.length ∧
      (fs.inodeAt ii).is_used = true := by
  have hmem : fs.fdAt fdn ∈ fs.file_descriptors := by
    unfold FS.fdAt
    rw [List.getD_eq_getElem _ _ hlt]
    exact List.getElem_mem hlt
  have hok := h _ hmem
  unfold fdOk at hok
  rw [hv] at hok
  simp only [Bool.not_true, Bool.false_or] at hok
  cases hi : (fs.fdAt fdn).inode with
  | none => rw [hi] at hok; simp at hok
  | some ii =>
    rw [hi] at hok
    simp only [Bool.and_eq_true, decide_eq_true_eq] at hok
    exact ⟨ii, rfl, hok.1, hok.2⟩

theorem fdInv_eqMeta {s t : FS} (hm : EqMeta s t) (h : FdInv s) : FdInv t := by
  intro x hx
  rw [hm.fds_eq] at hx
  have hok := h x hx
  unfold fdOk at hok ⊢
  unfold FS.inodeAt at hok ⊢
  rw [hm.inodes_eq]
  exact hok

theorem fdInv_setFd {fs : FS} (h : FdInv fs) (i : Nat) (e : FileDescriptor)
    (he : fdOk fs e = true) : FdInv (fs.setFd i e) := by
  intro x hx
  have hx2 : x ∈ fs.file_descriptors.set i e := hx
  rcases List.mem_or_eq_of_mem_set hx2 with hmem | rfl
  · exact h x hmem
  · exact he

theorem fdInv_writePos {fs : FS} (h : FdInv fs) (i p : Nat) : FdInv (fs.writePos i p) := by
  apply fdInv_setFd h
  by_cases hi : i < fs.file_descriptors.length
  · have hmem : fs.fdAt i ∈ fs.file_descriptors := by
      unfold FS.fdAt
      rw [List.getD_eq_getElem _ _ hi]
      exact List.getElem_mem hi
    have hok := h _ hmem
    exact hok
  · have hd : fs.fdAt i = default := by
      unfold FS.fdAt
      exact List.getD_eq_default _ _ (Nat.le_of_not_lt hi)
    rw [hd]
    rfl

theorem fdInv_fsRead {fs : FS} (h : FdInv fs) (fd : Int) (n : Nat) :
    FdInv ((fsRead fs fd n).2) := by
  rcases fsRead_state fs fd n with he | ⟨p, he⟩ <;> rw [he]
  · exact h
  · exact fdInv_writePos h _ _

theorem fdInv_setInode_keep {fs : FS} (h : FdInv fs) (ii : Nat) (x : Inode)
    (hx : x.is_used = (fs.inodeAt ii).is_used) : FdInv (fs.setInode ii x) := by
  intro e he
  have he2 : e ∈ fs.file_descriptors := he
  have hok := h e he2
  unfold fdOk at hok ⊢
  cases hv : e.is_valid with
  | false => simp [hv]
  | true =>
    rw [hv] at hok
    simp only [Bool.not_true, Bool.false_or] at hok ⊢
    revert hok
    cases hi : e.inode with
    | none => intro hok; simp at hok
    | some j =>
      intro hok
      simp only [Bool.and_eq_true, decide_eq_true_eq] at hok ⊢
      obtain ⟨hj, hu⟩ := hok
      constructor
      · show j < (fs.inodes.set ii x).length
        simpa using hj
      · by_cases hji : j = ii
        · subst hji
          show ((fs.inodes.set j x).getD j default).is_used = true
          rw [list_getD_set_self _ _ _ _ hj, hx]
          exact hu
        · show ((fs.inodes.set ii x).getD j default).is_used = true
          rw [list_getD_set_ne _ _ _ _ _ hji]
          exact hu

theorem fdInv_setInode_unused {fs : FS} (h : FdInv fs) (ii : Nat)
    (hu : (fs.inodeAt ii).is_used = false) (x : Inode) : FdInv (fs.setInode ii x) := by
  intro e he
  have he2 : e ∈ fs.file_descriptors := he
  have hok := h e he2
  unfold fdOk at hok ⊢
  cases hv : e.is_valid with
  | false => simp [hv]
  | true =>
    rw [hv] at hok
    simp only [Bool.not_true, Bool.false_or] at hok ⊢
    revert hok
    cases hi : e.inode with
    | none => intro hok; simp at hok
    | some j =>
      intro hok
      simp only [Bool.and_eq_true, decide_eq_true_eq] at hok ⊢
      obtain ⟨hj, hju⟩ := hok
      have hji : j ≠ ii := by
        intro hcon
        subst hcon
        rw [hju] at hu
        exact Bool.noConfusion hu
      constructor
      · show j < (fs.inodes.set ii x).length
        simpa using hj
      · show ((fs.inodes.set ii x).getD j default).is_used = true
        rw [list_getD_set_ne _ _ _ _ _ hji]
        exact hju

theorem eqMeta_allocateBlock (fs : FS) (bi : Nat) (fs2 : FS)
    (h : allocateBlock fs = some (bi, fs2)) : EqMeta fs fs2 := by
  unfold allocateBlock at h
  cases hb : findBestFit fs 1 with
  | none => rw [hb] at h; simp at h
  | some idx =>
    rw [hb] at h
    simp only [Option.some.injEq, Prod.mk.injEq] at h
    obtain ⟨h1, h2⟩ := h
    rw [← h2]
    exact ⟨rfl, rfl, rfl, rfl⟩

theorem eqMeta_incRefsAux : ∀ (fuel : Nat) (s : FS) (bi : Nat), EqMeta s (incRefsAux s bi fuel) := by
  intro fuel
  induction fuel with
  | zero => intro s bi; exact eqMeta_refl s
  | succ f ih =>
    intro s bi
    unfold incRefsAux
    dsimp only
    split
    · exact eqMeta_trans (eqMeta_setBlock s bi _) (ih _ _)
    · exact eqMeta_refl s

theorem eqMeta_incrementBlockRefs (s : FS) (bi : Nat) : EqMeta s (incrementBlockRefs s bi) :=
  eqMeta_incRefsAux _ s bi

theorem eqMeta_wdbFreeChain : ∀ (fuel : Nat) (s : FS) (bi : Nat),
    EqMeta s (wdbFreeChain s bi fuel) := by
  intro fuel
  induction fuel with
  | zero => intro s bi; exact eqMeta_refl s
  | succ f ih =>
    intro s bi
    unfold wdbFreeChain
    dsimp only
    split
    · exact eqMeta_trans (eqMeta_freeBlock s bi) (ih _ _)
    · exact eqMeta_refl s

theorem eqMeta_wdbLoop : ∀ (k : Nat) (s : FS) (data : List Nat)
    (remaining first prev : Nat) (isFirst : Bool),
    EqMeta s (wdbLoop s data remaining first prev isFirst k).2 := by
  intro k
  induction k with
  | zero =>
    intro s data remaining first prev isFirst
    unfold wdbLoop
    dsimp only
    split
    · exact eqMeta_setBlock s prev _
    · exact eqMeta_refl s
  | succ k2 ih =>
    intro s data remaining first prev isFirst
    unfold wdbLoop
    cases halloc : allocateBlock s with
    | none =>
      dsimp only
      split
      · exact eqMeta_wdbFreeChain _ s first
      · exact eqMeta_refl s
    | some p =>
      obtain ⟨bi, sA⟩ := p
      have hA : EqMeta s sA := eqMeta_allocateBlock s bi sA halloc
      dsimp only
      refine eqMeta_trans (eqMeta_trans ?_ (eqMeta_setBlock _ bi _)) (ih _ _ _ _ _ _)
      split
      · exact hA
      · exact eqMeta_trans hA (eqMeta_setBlock sA prev _)

theorem eqMeta_writeDeltaBlocks (s : FS) (buffer : List Nat) (size ds : Nat) :
    EqMeta s (writeDeltaBlocks s buffer size ds).2 := by
  unfold writeDeltaBlocks
  dsimp only
  split
  · exact eqMeta_refl s
  · exact eqMeta_wdbLoop _ s _ _ _ _ _

theorem setInode_setInode (fs : FS) (ii : Nat) (x y : Inode) :
    (fs.setInode ii x).setInode ii y = fs.setInode ii y := by
  unfold FS.setInode
  dsimp only
  rw [List.set_set]

theorem fdInv_fsCreate (fs : FS) (name : String) (h : FdInv fs) :
    FdInv ((fsCreate fs name).2) := by
  unfold fsCreate
  dsimp only
  split
  · exact h
  · split
    · exact h
    · cases hfi : firstUnusedInode fs with
      | none => exact h
      | some ii =>
        dsimp only
        have hfi2 : fs.inodes.findIdx? (fun i => !i.is_used) = some ii := hfi
        have hprop := findIdx?_prop (fun i => !i.is_used) default fs.inodes ii hfi2
        have hunused : (fs.inodeAt ii).is_used = false := by
          have := hprop.2
          unfold FS.inodeAt
          simpa using this
        have hii : ii < fs.inodes.length := hprop.1
        have h1 : FdInv (fs.setInode ii ⟨true, name, 0, 0, 0, []⟩) :=
          fdInv_setInode_unused h ii hunused _
        cases hfd : allocateFd (fs.setInode ii ⟨true, name, 0, 0, 0, []⟩) with
        | none =>
          dsimp only
          rw [setInode_setInode]
          exact fdInv_setInode_unused h ii hunused _
        | some fd =>
          dsimp only
          apply fdInv_setFd h1
          unfold fdOk
          simp only [Bool.not_true, Bool.false_or]
          have hlen : (fs.setInode ii ⟨true, name, 0, 0, 0, []⟩).inodes.length =
              fs.inodes.length := by
            unfold FS.setInode
            simp
          have hget : ((fs.setInode ii ⟨true, name, 0, 0, 0, []⟩).inodeAt ii).is_used = true := by
            unfold FS.setInode FS.inodeAt
            dsimp only
            rw [list_getD_set_self _ _ _ _ hii]
          simp only [hget, Bool.and_true, decide_eq_true_eq]
          rw [hlen]
          simpa using hii

theorem fdInv_fsOpen (fs : FS) (name : String) (mode : FileMode) (h : FdInv fs) :
    FdInv ((fsOpen fs name mode).2) := by
  unfold fsOpen
  cases hfi : findInodeIdx fs name with
  | none => exact h
  | some ii =>
    dsimp only
    cases hfd : allocateFd fs with
    | none => exact h
    | some fd =>
      dsimp only
      apply fdInv_setFd h
      have hfi2 : fs.inodes.findIdx? (fun i => i.is_used && decide (i.filename = name)) =
          some ii := hfi
      have hprop := findIdx?_prop (fun i => i.is_used && decide (i.filename = name))
        default fs.inodes ii hfi2
      have hused : (fs.inodeAt ii).is_used = true := by
        have := hprop.2
        unfold FS.inodeAt
        simp only [Bool.and_eq_true] at this
        exact this.1
      unfold fdOk
      simp only [Bool.not_true, Bool.false_or, hused, Bool.and_true, decide_eq_true_eq]
      exact hprop.1

theorem fdInv_fsClose (fs : FS) (fd : Int) (h : FdInv fs) : FdInv ((fsClose fs fd).2) := by
  unfold fsClose
  split
  · exact h
  · dsimp only
    apply fdInv_setFd h
    unfold fdOk
    simp

theorem fdInv_fsWriteCommit (fs : FS) (fdn ii : Nat) (buffer : List Nat) (ds dsz : Nat)
    (h : FdInv fs) : FdInv ((fsWriteCommit fs fdn ii buffer ds dsz).2) := by
  unfold fsWriteCommit
  dsimp only
  split
  · exact fdInv_writePos h _ _
  · cases hw : writeDeltaBlocks fs buffer buffer.length ds with
    | mk r fsE =>
      have hE : EqMeta fs fsE := by
        have := eqMeta_writeDeltaBlocks fs buffer buffer.length ds
        rw [hw] at this
        exact this
      have hEinv : FdInv fsE := fdInv_eqMeta hE h
      cases r with
      | none => exact hEinv
      | some nfb =>
        dsimp only
        have hFinv : FdInv (incrementBlockRefs fsE nfb) :=
          fdInv_eqMeta (eqMeta_incrementBlockRefs fsE nfb) hEinv
        apply fdInv_writePos
        exact fdInv_setInode_keep hFinv ii _ rfl

theorem fdInv_fsWrite (fs : FS) (fd : Int) (buffer : List Nat) (h : FdInv fs) :
    FdInv ((fsWrite fs fd buffer).2) := by
  unfold fsWrite
  dsimp only
  split
  · exact h
  · split
    · exact h
    · cases hi : (fs.fdAt fd.toNat).inode with
      | none => exact h
      | some ii =>
        dsimp only
        split
        · exact h
        · split
          · exact fdInv_fsWriteCommit _ _ _ _ _ _ h
          · split
            · exact fdInv_fsWriteCommit _ _ _ _ _ _ h
            · have h3 : FdInv ((fsRead (fs.writePos fd.toNat 0) fd
                  (fs.inodeAt ii).size).2.writePos fd.toNat
                  ((fs.fdAt fd.toNat).current_position)) :=
                fdInv_writePos (fdInv_fsRead (fdInv_writePos h _ _) fd _) _ _
              cases hr : (fsRead (fs.writePos fd.toNat 0) fd (fs.inodeAt ii).size).1 with
              | none =>
                dsimp only
                exact h3
              | some old =>
                dsimp only
                split
                · exact h3
                · exact fdInv_fsWriteCommit _ _ _ _ _ _ h3

theorem fdInv_fsRollback (fs : FS) (fd : Int) (v : Nat) (h : FdInv fs) :
    FdInv ((fsRollback fs fd v).2) := by
  unfold fsRollback
  dsimp only
  split
  · exact h
  · cases hi : (fs.fdAt fd.toNat).inode with
    | none => exact h
    | some ii =>
      dsimp only
      split
      · exact h
      · cases hf : (fs.inodeAt ii).version_history.find? (fun w => w.version_number == v) with
        | none => exact h
        | some tgt =>
          dsimp only
          apply fdInv_writePos
          have hfold : FdInv ((fs.inodeAt ii).version_history.foldl
              (fun s w =>
                if w.version_number ≤ v then s
                else if w.block_index < s.blocks.length then decrementBlockRefs s w.block_index
                else s) fs) :=
            fdInv_eqMeta (eqMeta_rollbackFold v _ fs) h
          exact fdInv_setInode_keep hfold ii _ rfl

theorem accessors_isSome (fs : FS) (fd : Int) (h : FdInv fs) :
    (fsGetFileSize fs fd).isSome = true ∧ (fsGetVersionCount fs fd).isSome = true ∧
      (fsGetFileStatus fs fd).isSome = true := by
  by_cases hc : fd < 0 ∨ (fs.file_descriptors.length : Int) ≤ fd ∨
      ¬ (fs.fdAt fd.toNat).is_valid
  · unfold fsGetFileSize fsGetVersionCount fsGetFileStatus
    rw [if_pos hc, if_pos hc, if_pos hc]
    exact ⟨rfl, rfl, rfl⟩
  · have hc2 := hc
    push_neg at hc2
    obtain ⟨h1, h2, h3⟩ := hc2
    have hfdn : fd.toNat < fs.file_descriptors.length := by omega
    obtain ⟨ii, hi, _, _⟩ := fdInv_entry h fd.toNat hfdn h3
    unfold fsGetFileSize fsGetVersionCount fsGetFileStatus
    rw [if_neg hc, if_neg hc, if_neg hc, hi]
    exact ⟨rfl, rfl, rfl⟩

/-- C10: confirmed.  The handle-table invariant — every valid
descriptor slot holds a non-null inode reference to an in-range,
in-use inode slot — is preserved by each of create, open, close, read,
write and rollback_to_version, and under it the accessors
get_file_size, get_version_count and get_file_status never reach the
unchecked null dereference their C++ bodies perform after validating
only the descriptor range and is_valid flag (their result is never the
none marker that models that dereference). -/
theorem c10_fd_inode_invariant (fs : FS) (op : FsOp) (fd : Int) (h : FdInv fs) :
    FdInv (applyOp fs op) ∧
    (fsGetFileSize fs fd).isSome = true ∧ (fsGetVersionCount fs fd).isSome = true ∧
    (fsGetFileStatus fs fd).isSome = true := by
  refine ⟨?_, accessors_isSome fs fd h⟩
  cases op with
  | mkfile n => exact fdInv_fsCreate fs n h
  | openf n m => exact fdInv_fsOpen fs n m h
  | closef fd2 => exact fdInv_fsClose fs fd2 h
  | readf fd2 n => exact fdInv_fsRead h fd2 n
  | writef fd2 b => exact fdInv_fsWrite fs fd2 b h
  | rollbackf fd2 v => exact fdInv_fsRollback fs fd2 v h

/-- Witness for C10: the invariant holds after writing to the fresh
file of stA1 and the accessors of that state are safe on descriptor 0. -/
theorem c10_fd_inode_invariant_witness :
    FdInv (applyOp stA1 (FsOp.writef 0 helloBytes)) ∧
    (fsGetFileSize stA1 0).isSome = true ∧ (fsGetVersionCount stA1 0).isSome = true ∧
    (fsGetFileStatus stA1 0).isSome = true :=
  c10_fd_inode_invariant stA1 (FsOp.writef 0 helloBytes) 0 (by decide)

end CowFS
